import Mathlib

/-!
# Scrolly: overlay filesystem, script injection, port allocation, lifecycle

A shallow embedding of `main.go` (the HTTP host) and `main-wails.go` (the
desktop host) of the scrolly presentation server, followed by the properties
proved about it.

* Go `string` and `[]byte` values are lists of bytes (`Bytes`).
* An `fs.FS` value is the record of the three calls the overlay makes on it.
* An `http.ResponseWriter` is a record of what has been sent so far; an
  `http.Handler` is the list of calls it makes on the writer it is handed.
* `net.Listen` is an oracle telling for each port whether binding succeeds.
-/

namespace Scrolly

/-! ## Byte strings -/

/-- A Go byte string (`string` or `[]byte`). -/
abbrev Bytes := List UInt8

/-- The bytes of a string literal of the source: its UTF-8 encoding, which is
what the conversion `[]byte("...")` yields. -/
def bytesOf (s : String) : Bytes :=
  s.toList.flatMap String.utf8EncodeChar

/-- Whether `s` begins with `sep` (`bytes.HasPrefix`). -/
def startsWith : Bytes → Bytes → Bool
  | _, [] => true
  | [], _ :: _ => false
  | x :: xs, y :: ys => x == y && startsWith xs ys

/-- Scan of `bytes.Index`: `i` is the offset of the remaining input. -/
def indexFrom (sep : Bytes) : Bytes → Nat → Int
  | [], i => if sep = [] then (i : Int) else -1
  | x :: xs, i =>
    if startsWith (x :: xs) sep then (i : Int) else indexFrom sep xs (i + 1)

/-- The function `bytes.Index(s, sep)`: the index of the first instance of
`sep` in `s`, or `-1` if `sep` is not present in `s`. -/
def Index (s sep : Bytes) : Int := indexFrom sep s 0

/-- The function `bytes.Contains(b, subslice)`, which is `Index(b, subslice) != -1`. -/
def Contains (b subslice : Bytes) : Bool := Index b subslice != -1

/-- The function `strconv.Itoa`. -/
def Itoa (n : Int) : String := toString n

/-- Scan of `path.Ext` from the last byte backwards; `acc` is `path[i+1:]`. -/
def extScan : Bytes → Bytes → Bytes
  | [], _ => []
  | c :: rest, acc =>
    if c = 47 then []
    else if c = 46 then c :: acc
    else extScan rest (c :: acc)

/-- The function `path.Ext`: the suffix beginning at the final dot in the final
slash-separated element of `path`; empty if there is no dot. -/
def Ext (path : Bytes) : Bytes := extScan path.reverse []

/-! ## Overlay filesystem (`OverlayFS`) -/

/-- Errors of `io/fs` operations. -/
inductive FsError where
  | ErrNotExist
  | ErrInvalid
  | ErrPermission
  | notDir
  | other (msg : String)
  deriving DecidableEq, Repr

/-- An `fs.FileInfo`. -/
structure FileInfo where
  Name : Bytes
  Size : Nat
  IsDir : Bool
  deriving DecidableEq, Repr

/-- An `fs.DirEntry`. -/
structure DirEntry where
  Name : Bytes
  IsDir : Bool
  deriving DecidableEq, Repr

/-- An open `fs.File`: its `Stat` and what `io.ReadAll` returns on it. -/
structure File where
  Stat : FileInfo
  ReadAll : Except FsError Bytes

/-- An `fs.FS` value, seen through the calls made on it: `Open(name)`,
`fs.ReadDir(fsys, name)` and `fs.Stat(fsys, name)`. -/
structure FS where
  Open : Bytes → Except FsError File
  ReadDir : Bytes → Except FsError (List DirEntry)
  Stat : Bytes → Except FsError FileInfo

/-- OverlayFS provides a filesystem that checks primary first, then falls back
to secondary. -/
structure OverlayFS where
  primary : FS
  fallback : FS

/-- Method `(*OverlayFS).Open`. -/
def OverlayFS.Open (o : OverlayFS) (name : Bytes) : Except FsError File :=
  match o.primary.Open name with
  | .ok f => .ok f
  | .error _ => o.fallback.Open name

/-- Method `(*OverlayFS).ReadDir`. -/
def OverlayFS.ReadDir (o : OverlayFS) (name : Bytes) :
    Except FsError (List DirEntry) :=
  match o.primary.ReadDir name with
  | .ok entries => .ok entries
  | .error _ => o.fallback.ReadDir name

/-- Method `(*OverlayFS).Stat`. -/
def OverlayFS.Stat (o : OverlayFS) (name : Bytes) : Except FsError FileInfo :=
  match o.primary.Stat name with
  | .ok info => .ok info
  | .error _ => o.fallback.Stat name

/-- The overlay is itself an `fs.FS` (it is what `http.FS` and `loadConfig`
receive). -/
def OverlayFS.toFS (o : OverlayFS) : FS :=
  { Open := o.Open, ReadDir := o.ReadDir, Stat := o.Stat }

/-- A flat in-memory store: the listed regular files under the root directory
`"."`. Used to build concrete stores. -/
def flatFS (files : List (Bytes × Bytes)) : FS where
  Open name :=
    if name = bytesOf "." then
      .ok { Stat := { Name := bytesOf ".", Size := 0, IsDir := true },
            ReadAll := .error (.other "is a directory") }
    else match files.lookup name with
      | some data =>
        .ok { Stat := { Name := name, Size := data.length, IsDir := false },
              ReadAll := .ok data }
      | none => .error .ErrNotExist
  ReadDir name :=
    if name = bytesOf "." then
      .ok (files.map (fun e => { Name := e.1, IsDir := false }))
    else match files.lookup name with
      | some _ => .error .notDir
      | none => .error .ErrNotExist
  Stat name :=
    if name = bytesOf "." then .ok { Name := bytesOf ".", Size := 0, IsDir := true }
    else match files.lookup name with
      | some data => .ok { Name := name, Size := data.length, IsDir := false }
      | none => .error .ErrNotExist

/-- A store on which every operation fails with a permission error. -/
def deniedFS : FS where
  Open _ := .error .ErrPermission
  ReadDir _ := .error .ErrPermission
  Stat _ := .error .ErrPermission

/-! ## Port allocator (`findAvailablePort`) -/

/-- Go `int` arithmetic: reduction of a mathematical integer to the signed
64-bit range. -/
def wrapInt64 (x : Int) : Int := (x + 2 ^ 63) % 2 ^ 64 - 2 ^ 63

/-- Outcome of `findAvailablePort`. -/
inductive PortResult where
  /-- The function returned this port. -/
  | port (p : Int)
  /-- The call `log.Fatal("No available ports found")` was reached. -/
  | fatal
  /-- The model ran out of loop iterations (never happens, see
  `findAvailablePort_lowest_free`). -/
  | outOfFuel
  deriving DecidableEq, Repr

/-- The loop `for port := startPort; port < startPort+100; port++` with the loop
bound `limit` already evaluated. `listen port` tells whether
`net.Listen("tcp", ":"+strconv.Itoa(port))` returns a nil error. -/
def portLoop (listen : Int → Bool) (limit : Int) : Nat → Int → PortResult
  | 0, _ => .outOfFuel
  | fuel + 1, port =>
    if port < limit then
      if listen port then .port port
      else portLoop listen limit fuel (wrapInt64 (port + 1))
    else .fatal

/-- The function `findAvailablePort`. -/
def findAvailablePort (listen : Int → Bool) (startPort : Int) : PortResult :=
  portLoop listen (wrapInt64 (startPort + 100)) 101 startPort

/-! ## HTTP model -/

/-- An `http.Header` map restricted to single-valued keys, as `Set`, `Del` and
`Get` see it. Keys and values are text. -/
structure Header where
  entries : List (String × String)
  deriving DecidableEq, Repr

/-- Method `Header.Set`: replaces any existing value of `key`. -/
def Header.Set (h : Header) (key value : String) : Header :=
  ⟨(key, value) :: h.entries.filter (fun e => e.1 != key)⟩

/-- Method `Header.Del`. -/
def Header.Del (h : Header) (key : String) : Header :=
  ⟨h.entries.filter (fun e => e.1 != key)⟩

/-- Method `Header.Get`. -/
def Header.Get (h : Header) (key : String) : Option String :=
  h.entries.lookup key

/-- The part of an `*http.Request` a handler is given: method and `URL.Path`. -/
structure Request where
  Method : String
  Path : Bytes
  deriving DecidableEq, Repr

/-- One call a handler makes on its `http.ResponseWriter`. -/
inductive Call where
  /-- The call `w.Header().Set(key, value)`. -/
  | HeaderSet (key value : String)
  /-- The call `w.Header().Del(key)`. -/
  | HeaderDel (key : String)
  /-- The call `w.WriteHeader(statusCode)`. -/
  | WriteHeader (statusCode : Int)
  /-- The call `w.Write(b)`. -/
  | Write (b : Bytes)
  deriving DecidableEq, Repr

/-- An `http.Handler`: the calls `ServeHTTP` makes, in order, on the writer it
receives, for a given request. -/
abbrev Handler := Request → List Call

/-- The server side `http.ResponseWriter`: the live header map, and what went
out to the client (status line, headers as they stood when the status line was
written, body bytes). -/
structure ResponseWriter where
  header : Header
  wroteHeader : Bool
  status : Int
  sent : Header
  body : Bytes
  deriving DecidableEq, Repr

/-- The writer a request starts with. -/
def ResponseWriter.fresh : ResponseWriter :=
  { header := ⟨[]⟩, wroteHeader := false, status := 0, sent := ⟨[]⟩, body := [] }

/-- Method `WriteHeader` of the server writer: the first call fixes status and
headers, later calls are ignored. -/
def ResponseWriter.WriteHeader (w : ResponseWriter) (statusCode : Int) :
    ResponseWriter :=
  if w.wroteHeader then w
  else { w with wroteHeader := true, status := statusCode, sent := w.header }

/-- Method `Write` of the server writer: an implicit `WriteHeader(200)` if none
was made, then the bytes are appended to the body. -/
def ResponseWriter.Write (w : ResponseWriter) (b : Bytes) : ResponseWriter :=
  let w := w.WriteHeader 200
  { w with body := w.body ++ b }

/-- One call applied to the server writer. -/
def ResponseWriter.call (w : ResponseWriter) : Call → ResponseWriter
  | .HeaderSet key value => { w with header := w.header.Set key value }
  | .HeaderDel key => { w with header := w.header.Del key }
  | .WriteHeader statusCode => w.WriteHeader statusCode
  | .Write b => w.Write b

/-- The call `next.ServeHTTP(w, r)` on the server writer. -/
def Handler.ServeHTTP (next : Handler) (w : ResponseWriter) (r : Request) :
    ResponseWriter :=
  (next r).foldl ResponseWriter.call w

/-- What the client has received once the request is over: status, headers
and body (a handler that never wrote gets the implicit 200). -/
structure Response where
  status : Int
  header : Header
  body : Bytes
  deriving DecidableEq, Repr

/-- The response of a finished request. -/
def ResponseWriter.response (w : ResponseWriter) : Response :=
  let w := w.WriteHeader 200
  { status := w.status, header := w.sent, body := w.body }

/-- responseWriter wrapper to capture response. The embedded writer provides
`Header()`; `Write` and `WriteHeader` are overridden. -/
structure responseWriterWrapper where
  inner : ResponseWriter
  buf : Bytes
  status : Int
  deriving DecidableEq, Repr

/-- Method `(*responseWriterWrapper).Write`. -/
def responseWriterWrapper.Write (w : responseWriterWrapper) (b : Bytes) :
    responseWriterWrapper :=
  { w with buf := w.buf ++ b }

/-- Method `(*responseWriterWrapper).WriteHeader`. -/
def responseWriterWrapper.WriteHeader (w : responseWriterWrapper)
    (status : Int) : responseWriterWrapper :=
  { w with status := status }

/-- One call applied to the wrapper: header calls reach the embedded writer's
map, the other two are captured. -/
def responseWriterWrapper.call (w : responseWriterWrapper) :
    Call → responseWriterWrapper
  | .HeaderSet key value =>
    { w with inner := { w.inner with header := w.inner.header.Set key value } }
  | .HeaderDel key =>
    { w with inner := { w.inner with header := w.inner.header.Del key } }
  | .WriteHeader statusCode => w.WriteHeader statusCode
  | .Write b => w.Write b

/-- The call `next.ServeHTTP(wrapper, r)`. -/
def Handler.ServeWrapped (next : Handler) (w : responseWriterWrapper)
    (r : Request) : responseWriterWrapper :=
  (next r).foldl responseWriterWrapper.call w

/-! ## Content classifier and injector -/

/-- The heartbeat script of `main.go`, lines 178 to 192. -/
def heartbeatScript : String :=
  "<script>\nconst wsUrl = 'ws://' + window.location.hostname + ':' + window.location.port + '/ws';\nconst ws = new WebSocket(wsUrl);\nws.onopen = () => \x7b\n    console.log('Connected to server');\n    setInterval(() => \x7b\n        if (ws.readyState === WebSocket.OPEN) \x7b\n            ws.send('ping');\n        \x7d\n    \x7d, 5000);\n\x7d;\nws.onclose = () => console.log('Disconnected from server');\nws.onerror = (error) => console.error('WebSocket error:', error);\n</script>\n"

/-- The hotkey script tags of `main.go`, lines 196 to 198. -/
def hotkeyScripts : String :=
  "<script src=\"/js-yaml.min.js\"></script>\n<script src=\"/hotkeys.js\"></script>\n"

/-- The string `injection` built by `injectScriptsMiddleware`. -/
def injection (serverMode : Bool) : String :=
  let injection := "\n"
  let injection := if !serverMode then injection ++ heartbeatScript else injection
  injection ++ hotkeyScripts

/-- The string `injection` of `injectScriptsHandler` in `main-wails.go`. -/
def wailsInjection : String :=
  "<script src=\"js-yaml.min.js\"></script>\n<script src=\"hotkeys.js\"></script>\n<script>\n// Open external links in system browser (Wails)\ndocument.addEventListener('click', (e) => \x7b\n    const target = e.target.closest('a');\n    if (target && target.href && (target.target === '_blank' || target.href.startsWith('http'))) \x7b\n        e.preventDefault();\n        if (window.runtime && window.runtime.BrowserOpenURL) \x7b\n            window.runtime.BrowserOpenURL(target.href);\n        \x7d\n    \x7d\n\x7d);\n</script>\n"

/-- The step "Inject before `</body>`", identical in both hosts:
`if idx := bytes.Index(body, bodyTag); idx != -1
 { body = append(body[:idx], append([]byte(injection), body[idx:]...)...) }`.
The inner `append` copies `body[idx:]` behind a freshly allocated copy of the
injection before the outer one writes anything, so the value is the plain
concatenation. -/
def injectBeforeBodyTag (injection : String) (body : Bytes) : Bytes :=
  let bodyTag := bytesOf "</body>"
  let idx := Index body bodyTag
  if idx ≠ -1 then
    body.take idx.toNat ++ (bytesOf injection ++ body.drop idx.toNat)
  else body

/-- The handler returned by `injectScriptsMiddleware(next, serverMode)`, run on
the writer `w` and the request `r`. -/
def injectScriptsMiddleware (next : Handler) (serverMode : Bool)
    (w : ResponseWriter) (r : Request) : ResponseWriter :=
  let ext := Ext r.Path
  let ext := if r.Path = bytesOf "/" then bytesOf ".html" else ext
  if ext ≠ bytesOf ".html" ∧ ext ≠ bytesOf ".htm" ∧ ext ≠ bytesOf "" then
    next.ServeHTTP w r
  else
    let wrapper := next.ServeWrapped { inner := w, buf := [], status := 200 } r
    let w := wrapper.inner
    let body := wrapper.buf
    if !Contains body (bytesOf "<html") && !Contains body (bytesOf "</body>") then
      (w.WriteHeader wrapper.status).Write body
    else
      let body := injectBeforeBodyTag (injection serverMode) body
      let w := { w with header := w.header.Set "Content-Type" "text/html; charset=utf-8" }
      let w := { w with header := w.header.Set "Content-Length" (Itoa body.length) }
      (w.WriteHeader wrapper.status).Write body

/-- The function `http.Error`. -/
def httpError (w : ResponseWriter) (error : String) (code : Int) :
    ResponseWriter :=
  let h := w.header.Del "Content-Length"
  let h := h.Set "Content-Type" "text/plain; charset=utf-8"
  let h := h.Set "X-Content-Type-Options" "nosniff"
  (({ w with header := h }).WriteHeader code).Write (bytesOf (error ++ "\n"))

/-- The handler returned by `injectScriptsHandler(overlayFS)` in
`main-wails.go`, run on the writer `w` and the request `r`. The static file
handler `http.FileServer(http.FS(overlayFS))` and `http.DetectContentType` are
parameters. The value `none` is the run-time panic of `filePath[1:]` on an
empty path. -/
def injectScriptsHandler (overlayFS : FS) (fileServer : FS → Handler)
    (DetectContentType : Bytes → String) (w : ResponseWriter) (r : Request) :
    Option ResponseWriter :=
  let ext := Ext r.Path
  let ext :=
    if r.Path = bytesOf "/" ∨ r.Path = bytesOf "/index.html" then bytesOf ".html"
    else ext
  if ext ≠ bytesOf ".html" ∧ ext ≠ bytesOf ".htm" ∧ ext ≠ bytesOf "" then
    some ((fileServer overlayFS).ServeHTTP w r)
  else
    let filePath := if r.Path = bytesOf "/" then bytesOf "/index.html" else r.Path
    match filePath with
    | [] => none
    | _ :: filePath =>
      match overlayFS.Open filePath with
      | .error _ => some (httpError w "File not found" 404)
      | .ok file =>
        match file.ReadAll with
        | .error _ => some (httpError w "Error reading file" 500)
        | .ok body =>
          if !Contains body (bytesOf "<html") && !Contains body (bytesOf "</body>") then
            let w := { w with header := w.header.Set "Content-Type" (DetectContentType body) }
            some (w.Write body)
          else
            let body := injectBeforeBodyTag wailsInjection body
            let w := { w with header := w.header.Set "Content-Type" "text/html; charset=utf-8" }
            some (w.Write body)

/-! ## Lifecycle controller -/

/-- The result of one `conn.ReadMessage()` on the control channel. -/
inductive ReadResult where
  /-- A message arrived (`err == nil`); the handler discards type and payload. -/
  | message (messageType : Int) (p : Bytes)
  /-- The read failed or the peer closed the channel (`err != nil`). -/
  | failed (err : String)
  deriving DecidableEq, Repr

/-- Control points of the presentation-mode lifecycle. -/
inductive Lifecycle where
  /-- A request reached `websocketHandler`; `upgrader.Upgrade` is pending. -/
  | AwaitingConnection
  /-- The upgrade failed: the handler logged and returned, the server goes on. -/
  | UpgradeFailed
  /-- Inside the `for` loop, blocked in `conn.ReadMessage()`. -/
  | Connected
  /-- Inside `time.Sleep(graceMs * time.Millisecond)`, before `os.Exit(0)`. -/
  | Terminating (graceMs : Nat)
  /-- The call `os.Exit(code)` was made: the process is gone. -/
  | Exited (code : Int)
  deriving DecidableEq, Repr

/-- What the environment delivers to the controller. -/
inductive Event where
  /-- The call `upgrader.Upgrade(w, r, nil)` returned; `ok` is `err == nil`. -/
  | upgrade (ok : Bool)
  /-- The call `conn.ReadMessage()` returned. -/
  | read (r : ReadResult)
  /-- The pending `time.Sleep` returned. -/
  | graceElapsed
  deriving DecidableEq, Repr

/-- One step of `websocketHandler`; `none` when the handler is not waiting for
that event at that control point. Console output is left out. -/
def websocketHandlerStep : Lifecycle → Event → Option Lifecycle
  | .AwaitingConnection, .upgrade ok =>
    if ok then some .Connected else some .UpgradeFailed
  | .Connected, .read (.message _ _) => some .Connected
  | .Connected, .read (.failed _) => some (.Terminating 500)
  | .Terminating _, .graceElapsed => some (.Exited 0)
  | _, _ => none

/-- The handler run over a sequence of events; `none` as soon as an event is
not enabled. -/
def websocketHandlerRun : Lifecycle → List Event → Option Lifecycle
  | s, [] => some s
  | s, e :: es =>
    match websocketHandlerStep s e with
    | some t => websocketHandlerRun t es
    | none => none

/-- The function `shutdownHandler`: it answers `WriteHeader(http.StatusOK)` and
starts a goroutine that sleeps 200 ms and then calls `os.Exit(0)`; the second
component is the control point of that goroutine. -/
def shutdownHandler (w : ResponseWriter) (_r : Request) :
    ResponseWriter × Lifecycle :=
  (w.WriteHeader 200, .Terminating 200)

/-! ## Wiring in `main` -/

/-- The handlers `main` can register. -/
inductive Endpoint where
  | site
  | websocketHandler
  | shutdownHandler
  deriving DecidableEq, Repr

/-- The patterns `main` registers on the default mux, `http.Handle("/", handler)`
first, then the two lifecycle endpoints in presentation mode. -/
def registeredRoutes (serverMode : Bool) : List (String × Endpoint) :=
  let routes := [("/", Endpoint.site)]
  if serverMode then routes
  else routes ++ [("/ws", .websocketHandler), ("/shutdown", .shutdownHandler)]

/-! ## Auxiliary notions used to state the properties -/

/-- The bytes a handler writes, in order: the concatenation of its `Write`
payloads. -/
def writtenBytes : List Call → Bytes
  | [] => []
  | .Write b :: cs => b ++ writtenBytes cs
  | _ :: cs => writtenBytes cs

/-- The status of the last `WriteHeader` call in a list of calls, `dflt` if
there is none. -/
def lastStatus (dflt : Int) : List Call → Int
  | [] => dflt
  | .WriteHeader c :: cs => lastStatus c cs
  | _ :: cs => lastStatus dflt cs

/-- The header map after the `Header()` calls of a list of calls. -/
def headerAfter (h : Header) : List Call → Header
  | [] => h
  | .HeaderSet k v :: cs => headerAfter (h.Set k v) cs
  | .HeaderDel k :: cs => headerAfter (h.Del k) cs
  | _ :: cs => headerAfter h cs

/-- A request path is provisionally classified as HTML: it is `/`, or its
extension is `.html`, `.htm` or empty. -/
def classifiedHTML (path : Bytes) : Prop :=
  path = bytesOf "/" ∨ Ext path = bytesOf ".html" ∨ Ext path = bytesOf ".htm" ∨
    Ext path = bytesOf ""

/-- The closing body tag. -/
def bodyTag : Bytes := bytesOf "</body>"


/-- The wrapper of `injectScriptsMiddleware` after `next.ServeHTTP(wrapper, r)`,
for a request that starts on a fresh writer: `buf` is the buffered body and
`status` the captured status. -/
def captured (next : Handler) (r : Request) : responseWriterWrapper :=
  next.ServeWrapped { inner := .fresh, buf := [], status := 200 } r

/-! ## Concrete inputs -/

/-- A downstream handler serving a page with two closing body tags. -/
def demoPage : Handler := fun _ =>
  [.HeaderSet "Content-Type" "text/html; charset=utf-8",
   .HeaderSet "Content-Length" "19",
   .Write (bytesOf "<p>a</body>b</body>")]

/-- A downstream handler answering 404 with a body that looks like HTML. -/
def demoMissing : Handler := fun _ =>
  [.HeaderSet "Content-Type" "image/png", .WriteHeader 404,
   .Write (bytesOf "<html></body>")]

/-- A downstream handler answering 404 with plain text. -/
def demoText : Handler := fun _ =>
  [.HeaderSet "Content-Type" "text/plain; charset=utf-8",
   .HeaderSet "Content-Length" "9", .WriteHeader 404,
   .Write (bytesOf "not found")]

/-- An overlay whose primary store holds the page of `demoPage` as
`index.html`, over an empty fallback store. -/
def demoOverlay : OverlayFS :=
  { primary := flatFS [(bytesOf "index.html", bytesOf "<p>a</body>b</body>")],
    fallback := flatFS [] }

/-- The request `GET path`. -/
def demoGet (path : String) : Request := { Method := "GET", Path := bytesOf path }

/-! ## Overlay filesystem: properties -/

/-- C1 (shadowing). Whenever the primary store's `Open`, `ReadDir` or `Stat`
succeeds on a path, the overlay's operation returns exactly that result,
whatever the fallback store is. -/
theorem overlay_shadowing (o : OverlayFS) (name : Bytes) :
    (∀ f, o.primary.Open name = .ok f → o.Open name = .ok f) ∧
    (∀ entries, o.primary.ReadDir name = .ok entries →
      o.ReadDir name = .ok entries) ∧
    (∀ info, o.primary.Stat name = .ok info → o.Stat name = .ok info) := by
  refine ⟨?_, ?_, ?_⟩
  · intro f h
    simp [OverlayFS.Open, h]
  · intro entries h
    simp [OverlayFS.ReadDir, h]
  · intro info h
    simp [OverlayFS.Stat, h]

/-- Witness of C1: `index.html` is in both stores with different content; the
overlay answers with the primary store's file, listing and stat. -/
theorem overlay_shadowing_witness :
    let site := flatFS [(bytesOf "index.html", bytesOf "site")]
    let lib := flatFS [(bytesOf "index.html", bytesOf "library"),
      (bytesOf "hotkeys.js", bytesOf "keys")]
    let o : OverlayFS := { primary := site, fallback := lib }
    o.Open (bytesOf "index.html") = site.Open (bytesOf "index.html") ∧
    o.ReadDir (bytesOf ".") =
      .ok [{ Name := bytesOf "index.html", IsDir := false }] ∧
    o.Stat (bytesOf "index.html") =
      .ok { Name := bytesOf "index.html", Size := 4, IsDir := false } := by
  intro site lib o
  exact ⟨(overlay_shadowing o (bytesOf "index.html")).1 _ rfl,
    (overlay_shadowing o (bytesOf ".")).2.1 _ rfl,
    (overlay_shadowing o (bytesOf "index.html")).2.2 _ rfl⟩

/-- C2 (fallback verbatim). Whenever the primary store's operation fails, with
any error, the overlay returns exactly the fallback store's outcome for the
same operation and path, success or error; the primary's error is dropped. In
particular a path that is absent from both stores fails with the fallback's
not-found error, and a path only the fallback has yields the fallback's
result. -/
theorem overlay_fallback_verbatim (o : OverlayFS) (name : Bytes) :
    ((∀ e, o.primary.Open name = .error e → o.Open name = o.fallback.Open name) ∧
     (∀ e, o.primary.ReadDir name = .error e →
        o.ReadDir name = o.fallback.ReadDir name) ∧
     (∀ e, o.primary.Stat name = .error e → o.Stat name = o.fallback.Stat name)) ∧
    ((o.primary.Open name = .error .ErrNotExist →
        o.fallback.Open name = .error .ErrNotExist →
        o.Open name = .error .ErrNotExist) ∧
     (o.primary.ReadDir name = .error .ErrNotExist →
        o.fallback.ReadDir name = .error .ErrNotExist →
        o.ReadDir name = .error .ErrNotExist) ∧
     (o.primary.Stat name = .error .ErrNotExist →
        o.fallback.Stat name = .error .ErrNotExist →
        o.Stat name = .error .ErrNotExist)) ∧
    ((∀ f, o.primary.Open name = .error .ErrNotExist →
        o.fallback.Open name = .ok f → o.Open name = .ok f) ∧
     (∀ entries, o.primary.ReadDir name = .error .ErrNotExist →
        o.fallback.ReadDir name = .ok entries → o.ReadDir name = .ok entries) ∧
     (∀ info, o.primary.Stat name = .error .ErrNotExist →
        o.fallback.Stat name = .ok info → o.Stat name = .ok info)) := by
  have hOpen : ∀ e, o.primary.Open name = .error e →
      o.Open name = o.fallback.Open name := by
    intro e h
    simp [OverlayFS.Open, h]
  have hReadDir : ∀ e, o.primary.ReadDir name = .error e →
      o.ReadDir name = o.fallback.ReadDir name := by
    intro e h
    simp [OverlayFS.ReadDir, h]
  have hStat : ∀ e, o.primary.Stat name = .error e →
      o.Stat name = o.fallback.Stat name := by
    intro e h
    simp [OverlayFS.Stat, h]
  refine ⟨⟨hOpen, hReadDir, hStat⟩, ⟨?_, ?_, ?_⟩, ⟨?_, ?_, ?_⟩⟩
  · intro hp hf
    rw [hOpen _ hp, hf]
  · intro hp hf
    rw [hReadDir _ hp, hf]
  · intro hp hf
    rw [hStat _ hp, hf]
  · intro f hp hf
    rw [hOpen _ hp, hf]
  · intro entries hp hf
    rw [hReadDir _ hp, hf]
  · intro info hp hf
    rw [hStat _ hp, hf]

/-- Witness of C2: a primary store that fails with a permission error (not a
not-found error) is bypassed; `hotkeys.js` comes from the fallback, and
`missing.js`, absent from the fallback as well, fails with the fallback's
not-found error. -/
theorem overlay_fallback_verbatim_witness :
    let lib := flatFS [(bytesOf "hotkeys.js", bytesOf "keys")]
    let o : OverlayFS := { primary := deniedFS, fallback := lib }
    let p : OverlayFS := { primary := flatFS [], fallback := lib }
    o.Open (bytesOf "hotkeys.js") = lib.Open (bytesOf "hotkeys.js") ∧
    o.ReadDir (bytesOf "hotkeys.js") = .error .notDir ∧
    o.Stat (bytesOf "missing.js") = .error .ErrNotExist ∧
    p.Stat (bytesOf "missing.js") = .error .ErrNotExist ∧
    p.Stat (bytesOf "hotkeys.js") =
      .ok { Name := bytesOf "hotkeys.js", Size := 4, IsDir := false } := by
  intro lib o p
  exact ⟨(overlay_fallback_verbatim o (bytesOf "hotkeys.js")).1.1 .ErrPermission rfl,
    ((overlay_fallback_verbatim o (bytesOf "hotkeys.js")).1.2.1
      .ErrPermission rfl).trans rfl,
    ((overlay_fallback_verbatim o (bytesOf "missing.js")).1.2.2
      .ErrPermission rfl).trans rfl,
    (overlay_fallback_verbatim p (bytesOf "missing.js")).2.1.2.2 rfl rfl,
    (overlay_fallback_verbatim p (bytesOf "hotkeys.js")).2.2.2.2 _ rfl rfl⟩

/-! ## Port allocator: properties -/

/-- No wrap-around inside the signed 64-bit range. -/
theorem wrapInt64_of_range (x : Int) (hlo : -2 ^ 63 ≤ x) (hhi : x < 2 ^ 63) :
    wrapInt64 x = x := by
  unfold wrapInt64
  rw [Int.emod_eq_of_lt (by omega) (by omega)]
  omega

/-- A sum just above the range wraps to its value minus `2 ^ 64`. -/
theorem wrapInt64_of_overflow (x : Int) (hlo : 2 ^ 63 ≤ x) (hhi : x < 2 ^ 64) :
    wrapInt64 x = x - 2 ^ 64 := by
  unfold wrapInt64
  have h : (x + 2 ^ 63) % 2 ^ 64 = x + 2 ^ 63 - 2 ^ 64 := by
    rw [Int.emod_eq_sub_self_emod, Int.emod_eq_of_lt (by omega) (by omega)]
  rw [h]
  omega

/-- Behaviour of the probing loop when it has fuel for the ports left below the
bound: it stops at the lowest port on which `listen` succeeds, and reaches the
fatal branch exactly when there is none. -/
theorem portLoop_spec (listen : Int → Bool) (limit : Int) (hl : limit < 2 ^ 63) :
    ∀ (fuel : Nat) (port : Int), -2 ^ 63 ≤ port → (limit - port).toNat < fuel →
      match portLoop listen limit fuel port with
      | .port p => port ≤ p ∧ p < limit ∧ listen p = true ∧
          ∀ q, port ≤ q → q < p → listen q = false
      | .fatal => ∀ q, port ≤ q → q < limit → listen q = false
      | .outOfFuel => False := by
  intro fuel
  induction fuel with
  | zero => intro port _ h; omega
  | succ fuel ih =>
    intro port hport hfuel
    unfold portLoop
    by_cases hlt : port < limit
    · by_cases hb : listen port = true
      · rw [if_pos hlt, if_pos hb]
        exact ⟨le_refl _, hlt, hb, fun q h1 h2 => absurd h1 (by omega)⟩
      · rw [if_pos hlt, if_neg hb]
        have hw : wrapInt64 (port + 1) = port + 1 :=
          wrapInt64_of_range _ (by omega) (by omega)
        rw [hw]
        have hrec := ih (port + 1) (by omega) (by omega)
        have hfalse : listen port = false := by simpa using hb
        revert hrec
        cases portLoop listen limit fuel (port + 1) with
        | port p =>
          intro hrec
          obtain ⟨h1, h2, h3, h4⟩ := hrec
          refine ⟨by omega, h2, h3, ?_⟩
          intro q hq1 hq2
          by_cases hqp : q = port
          · rw [hqp]; exact hfalse
          · exact h4 q (by omega) hq2
        | fatal =>
          intro hrec q hq1 hq2
          by_cases hqp : q = port
          · rw [hqp]; exact hfalse
          · exact hrec q (by omega) hq2
        | outOfFuel => intro hrec; exact hrec
    · rw [if_neg hlt]
      intro q hq1 hq2
      omega

/-- C7 (port allocation). For every Go `int` starting port `s` and every
`listen` oracle (a port on which `net.Listen` fails counts as bound, and only
real ports 0..65535 can be bound successfully), `findAvailablePort` always
terminates; it reaches the fatal branch if and only if binding fails on all of
the 100 ports `s .. s+99`; and any port `p` it returns satisfies
`s ≤ p < s + 100`, binding succeeds on `p`, and fails on every port of
`[s, p)`. -/
theorem findAvailablePort_lowest_free (listen : Int → Bool) (s : Int)
    (hlo : -2 ^ 63 ≤ s) (hhi : s < 2 ^ 63)
    (hports : ∀ p, listen p = true → 0 ≤ p ∧ p ≤ 65535) :
    findAvailablePort listen s ≠ .outOfFuel ∧
    (findAvailablePort listen s = .fatal ↔
      ∀ p, s ≤ p → p < s + 100 → listen p = false) ∧
    (∀ p, findAvailablePort listen s = .port p →
      s ≤ p ∧ p < s + 100 ∧ listen p = true ∧
        ∀ q, s ≤ q → q < p → listen q = false) := by
  by_cases hov : s + 100 < 2 ^ 63
  · have hw : wrapInt64 (s + 100) = s + 100 :=
      wrapInt64_of_range _ (by omega) hov
    have hspec := portLoop_spec listen (s + 100) hov 101 s hlo (by omega)
    unfold findAvailablePort
    rw [hw]
    revert hspec
    cases portLoop listen (s + 100) 101 s with
    | port p =>
      intro hspec
      obtain ⟨h1, h2, h3, h4⟩ := hspec
      refine ⟨by simp, ⟨fun h => by simp at h, fun h => ?_⟩, ?_⟩
      · have := h p h1 h2
        rw [h3] at this
        exact absurd this (by simp)
      · intro p' hp'
        cases hp'
        exact ⟨h1, h2, h3, h4⟩
    | fatal =>
      intro hspec
      exact ⟨by simp, ⟨fun _ => hspec, fun _ => rfl⟩, fun p' hp' => by simp at hp'⟩
    | outOfFuel => intro hspec; exact hspec.elim
  · have hw : wrapInt64 (s + 100) = s + 100 - 2 ^ 64 :=
      wrapInt64_of_overflow _ (by omega) (by omega)
    have hfatal : findAvailablePort listen s = .fatal := by
      unfold findAvailablePort portLoop
      rw [hw]
      have : ¬ s < s + 100 - 2 ^ 64 := by omega
      rw [if_neg this]
    rw [hfatal]
    refine ⟨by simp, ⟨fun _ => ?_, fun _ => rfl⟩, fun p' hp' => by simp at hp'⟩
    intro p hp1 _
    by_contra hne
    have hp := hports p (by simpa using hne)
    omega

/-- Witness of C7: starting at 8080 with 8080 to 8084 occupied and 8085 free,
the allocator returns 8085. -/
theorem findAvailablePort_lowest_free_witness :
    findAvailablePort (fun p => decide (8085 ≤ p ∧ p ≤ 65535)) 8080 = .port 8085 ∧
    ((8080 : Int) ≤ 8085 ∧ (8085 : Int) < 8080 + 100 ∧
      decide ((8085 : Int) ≤ 8085 ∧ (8085 : Int) ≤ 65535) = true ∧
      ∀ q : Int, 8080 ≤ q → q < 8085 → decide (8085 ≤ q ∧ q ≤ 65535) = false) :=
  ⟨rfl, (findAvailablePort_lowest_free (fun p => decide (8085 ≤ p ∧ p ≤ 65535)) 8080
    (by decide) (by decide)
    (fun p hp => by
      have h := of_decide_eq_true hp
      omega)).2.2 8085 rfl⟩

/-! ## Byte search: properties -/

/-- The scan `startsWith` decides the list-prefix relation. -/
theorem startsWith_iff (s sep : Bytes) : startsWith s sep = true ↔ sep <+: s := by
  induction s generalizing sep with
  | nil =>
    cases sep with
    | nil => simp [startsWith]
    | cons y ys => simp [startsWith]
  | cons x xs ih =>
    cases sep with
    | nil => simp [startsWith]
    | cons y ys =>
      simp only [startsWith, Bool.and_eq_true, beq_iff_eq, ih, List.cons_prefix_cons]
      constructor
      · rintro ⟨h1, h2⟩; exact ⟨h1.symm, h2⟩
      · rintro ⟨h1, h2⟩; exact ⟨h1.symm, h2⟩

/-- The scan `indexFrom` either reports `-1`, and then `sep` occurs at no
offset, or reports the least offset at which `sep` occurs. -/
theorem indexFrom_spec (sep : Bytes) (s : Bytes) (i : Nat) :
    (indexFrom sep s i = -1 ∧ ∀ k, k ≤ s.length → ¬ sep <+: s.drop k) ∨
    (∃ k, k ≤ s.length ∧ indexFrom sep s i = ((i + k : Nat) : Int) ∧
      sep <+: s.drop k ∧ ∀ j, j < k → ¬ sep <+: s.drop j) := by
  induction s generalizing i with
  | nil =>
    by_cases hsep : sep = []
    · right
      exact ⟨0, le_refl _, by simp [indexFrom, hsep], by simp [hsep],
        fun j hj => absurd hj (by omega)⟩
    · left
      refine ⟨by simp [indexFrom, hsep], ?_⟩
      intro k _
      simpa using hsep
  | cons x xs ih =>
    by_cases hpre : startsWith (x :: xs) sep = true
    · right
      refine ⟨0, Nat.zero_le _, by simp [indexFrom, hpre], ?_,
        fun j hj => absurd hj (by omega)⟩
      simpa using (startsWith_iff _ _).1 hpre
    · have hnot : ¬ sep <+: x :: xs := fun h => hpre ((startsWith_iff _ _).2 h)
      have hstep : indexFrom sep (x :: xs) i = indexFrom sep xs (i + 1) := by
        simp [indexFrom, hpre]
      rcases ih (i + 1) with ⟨h1, h2⟩ | ⟨k, hk, h1, h2, h3⟩
      · left
        refine ⟨by rw [hstep, h1], ?_⟩
        intro k hk
        cases k with
        | zero => simpa using hnot
        | succ k =>
          simpa using h2 k (by simpa using hk)
      · right
        refine ⟨k + 1, by simpa using hk, ?_, by simpa using h2, ?_⟩
        · rw [hstep, h1]
          congr 1
          omega
        · intro j hj
          cases j with
          | zero => simpa using hnot
          | succ j => simpa using h3 j (by omega)

/-- An infix is a prefix of some tail. -/
theorem infix_iff_prefix_drop (sep s : Bytes) :
    sep <:+: s ↔ ∃ k, k ≤ s.length ∧ sep <+: s.drop k := by
  constructor
  · rintro ⟨a, b, h⟩
    refine ⟨a.length, ?_, ?_⟩
    · rw [← h]; simp
    · rw [← h]
      simp [List.append_assoc]
  · rintro ⟨k, _, t, ht⟩
    refine ⟨s.take k, t, ?_⟩
    rw [List.append_assoc, ht, List.take_append_drop]

/-- The function `Index` returns `-1` exactly when `sep` does not occur in `s`. -/
theorem Index_eq_neg_one_iff (s sep : Bytes) : Index s sep = -1 ↔ ¬ sep <:+: s := by
  unfold Index
  rw [infix_iff_prefix_drop]
  rcases indexFrom_spec sep s 0 with ⟨h1, h2⟩ | ⟨k, hk, h1, h2, _⟩
  · constructor
    · rintro _ ⟨k, hk, hpre⟩
      exact h2 k hk hpre
    · intro _; exact h1
  · constructor
    · intro h
      rw [h1] at h
      omega
    · intro h
      exact absurd ⟨k, hk, h2⟩ h

/-- The function `Index` returns the offset of the first occurrence. -/
theorem Index_eq_of_first (s sep : Bytes) (idx : Nat) (hle : idx ≤ s.length)
    (hocc : sep <+: s.drop idx) (hfirst : ∀ j, j < idx → ¬ sep <+: s.drop j) :
    Index s sep = (idx : Int) := by
  unfold Index
  rcases indexFrom_spec sep s 0 with ⟨_, h2⟩ | ⟨k, _, h1, h2, h3⟩
  · exact absurd hocc (h2 idx hle)
  · rw [h1]
    rcases Nat.lt_trichotomy k idx with h | h | h
    · exact absurd h2 (hfirst k h)
    · simp [h]
    · exact absurd hocc (h3 idx h)

/-- The function `Contains` decides the infix relation. -/
theorem Contains_iff (b sub : Bytes) : Contains b sub = true ↔ sub <:+: b := by
  unfold Contains
  rw [bne_iff_ne, Ne, Index_eq_neg_one_iff, not_not]

/-! ## Injector: auxiliary facts -/

/-- What running a list of calls on the wrapper amounts to: header calls act
on the embedded writer's map, writes accumulate in the buffer, and the last
`WriteHeader` gives the status. -/
theorem foldl_wrapper_call (cs : List Call) (w : ResponseWriter) (buf : Bytes)
    (st : Int) :
    cs.foldl responseWriterWrapper.call { inner := w, buf := buf, status := st } =
      { inner := { w with header := headerAfter w.header cs },
        buf := buf ++ writtenBytes cs, status := lastStatus st cs } := by
  induction cs generalizing w buf st with
  | nil => simp [headerAfter, writtenBytes, lastStatus]
  | cons c cs ih =>
    cases c with
    | HeaderSet k v =>
      simp [List.foldl, responseWriterWrapper.call, ih, headerAfter, writtenBytes,
        lastStatus]
    | HeaderDel k =>
      simp [List.foldl, responseWriterWrapper.call, ih, headerAfter, writtenBytes,
        lastStatus]
    | WriteHeader c =>
      simp [List.foldl, responseWriterWrapper.call, responseWriterWrapper.WriteHeader,
        ih, headerAfter, writtenBytes, lastStatus]
    | Write b =>
      simp [List.foldl, responseWriterWrapper.call, responseWriterWrapper.Write,
        ih, headerAfter, writtenBytes, lastStatus, List.append_assoc]

/-- The captured wrapper in terms of the downstream handler's calls. -/
theorem captured_eq (next : Handler) (r : Request) :
    captured next r =
      { inner := { ResponseWriter.fresh with
                     header := headerAfter ⟨[]⟩ (next r) },
        buf := writtenBytes (next r), status := lastStatus 200 (next r) } := by
  unfold captured Handler.ServeWrapped
  rw [foldl_wrapper_call]
  simp [ResponseWriter.fresh]

/-- The response after `WriteHeader` and `Write` on a writer that has not sent
its header yet. -/
theorem response_WriteHeader_Write (w : ResponseWriter) (hw : w.wroteHeader = false)
    (st : Int) (b : Bytes) :
    ((w.WriteHeader st).Write b).response =
      { status := st, header := w.header, body := w.body ++ b } := by
  simp [ResponseWriter.response, ResponseWriter.Write, ResponseWriter.WriteHeader, hw]

/-- The closing body tag is seven bytes long. -/
theorem bodyTag_eq : bodyTag = [60, 47, 98, 111, 100, 121, 62] := by decide

/-- With the first occurrence of the closing body tag at `idx`, the injection
step splices the fragment in at `idx`. -/
theorem injectBeforeBodyTag_first (inj : String) (body : Bytes) (idx : Nat)
    (hocc : bodyTag <+: body.drop idx)
    (hfirst : ∀ j, j < idx → ¬ bodyTag <+: body.drop j) :
    injectBeforeBodyTag inj body =
      body.take idx ++ bytesOf inj ++ body.drop idx := by
  have hle : idx ≤ body.length := by
    by_contra hgt
    rw [List.drop_eq_nil_of_le (by omega), List.prefix_nil, bodyTag_eq] at hocc
    simp at hocc
  have hidx : Index body (bytesOf "</body>") = (idx : Int) :=
    Index_eq_of_first body bodyTag idx hle hocc hfirst
  unfold injectBeforeBodyTag
  simp only [hidx]
  rw [if_pos (by omega)]
  simp [List.append_assoc]

/-- Without a closing body tag the injection step returns the body as is. -/
theorem injectBeforeBodyTag_absent (inj : String) (body : Bytes)
    (h : ¬ bodyTag <:+: body) : injectBeforeBodyTag inj body = body := by
  have hidx : Index body (bytesOf "</body>") = -1 :=
    (Index_eq_neg_one_iff body bodyTag).2 h
  unfold injectBeforeBodyTag
  simp [hidx]

/-- A body in which the closing tag occurs has a first occurrence. -/
theorem exists_first_bodyTag (body : Bytes) (h : bodyTag <:+: body) :
    ∃ idx, bodyTag <+: body.drop idx ∧ ∀ j, j < idx → ¬ bodyTag <+: body.drop j := by
  have hex : ∃ k, bodyTag <+: body.drop k := by
    obtain ⟨k, _, hk⟩ := (infix_iff_prefix_drop _ _).1 h
    exact ⟨k, hk⟩
  classical
  exact ⟨Nat.find hex, Nat.find_spec hex, fun j hj => Nat.find_min hex hj⟩

/-- Length of the output of the injection step. -/
theorem injectBeforeBodyTag_length (inj : String) (body : Bytes) :
    (bodyTag <:+: body →
      (injectBeforeBodyTag inj body).length = body.length + (bytesOf inj).length) ∧
    (¬ bodyTag <:+: body → (injectBeforeBodyTag inj body).length = body.length) := by
  constructor
  · intro h
    obtain ⟨idx, h1, h2⟩ := exists_first_bodyTag body h
    rw [injectBeforeBodyTag_first inj body idx h1 h2]
    have hle : idx ≤ body.length := by
      by_contra hgt
      rw [List.drop_eq_nil_of_le (by omega), List.prefix_nil, bodyTag_eq] at h1
      simp at h1
    simp only [List.length_append, List.length_take, List.length_drop]
    omega
  · intro h
    rw [injectBeforeBodyTag_absent inj body h]

/-- The sniff test of the code in terms of occurrences of the two markers. -/
theorem sniff_condition (body : Bytes) :
    (!Contains body (bytesOf "<html") && !Contains body (bytesOf "</body>")) = true ↔
      ¬ bytesOf "<html" <:+: body ∧ ¬ bodyTag <:+: body := by
  simp only [Bool.and_eq_true, Bool.not_eq_true', ← Bool.not_eq_true, Contains_iff]
  rfl

/-- On a path classified as HTML the extension test of the middleware fails. -/
theorem ext_test_of_classified (path : Bytes) (h : classifiedHTML path) :
    ¬ ((if path = bytesOf "/" then bytesOf ".html" else Ext path) ≠ bytesOf ".html" ∧
       (if path = bytesOf "/" then bytesOf ".html" else Ext path) ≠ bytesOf ".htm" ∧
       (if path = bytesOf "/" then bytesOf ".html" else Ext path) ≠ bytesOf "") := by
  rintro ⟨h1, h2, h3⟩
  by_cases hroot : path = bytesOf "/"
  · rw [if_pos hroot] at h1
    exact h1 rfl
  · rw [if_neg hroot] at h1 h2 h3
    rcases h with h | h | h | h
    · exact hroot h
    · exact h1 h
    · exact h2 h
    · exact h3 h

/-- The response the middleware produces on a fresh writer for a path
classified as HTML, in terms of the captured wrapper. -/
theorem middleware_response (next : Handler) (serverMode : Bool) (r : Request)
    (hclass : classifiedHTML r.Path) :
    (injectScriptsMiddleware next serverMode .fresh r).response =
      if ¬ bytesOf "<html" <:+: (captured next r).buf ∧
          ¬ bodyTag <:+: (captured next r).buf then
        { status := (captured next r).status,
          header := (captured next r).inner.header,
          body := (captured next r).buf }
      else
        { status := (captured next r).status,
          header := ((captured next r).inner.header.Set "Content-Type"
              "text/html; charset=utf-8").Set "Content-Length"
              (Itoa (injectBeforeBodyTag (injection serverMode)
                (captured next r).buf).length),
          body := injectBeforeBodyTag (injection serverMode) (captured next r).buf } := by
  have hfresh : (captured next r).inner.wroteHeader = false := by
    rw [captured_eq]; rfl
  have hbody : (captured next r).inner.body = [] := by
    rw [captured_eq]; rfl
  unfold injectScriptsMiddleware
  simp only []
  rw [if_neg (ext_test_of_classified r.Path hclass)]
  rw [show next.ServeWrapped { inner := ResponseWriter.fresh, buf := [], status := 200 } r =
    captured next r from rfl]
  by_cases hs : (!Contains (captured next r).buf (bytesOf "<html") &&
      !Contains (captured next r).buf (bytesOf "</body>")) = true
  · rw [if_pos hs, if_pos ((sniff_condition _).1 hs)]
    rw [response_WriteHeader_Write _ hfresh, hbody]
    simp
  · rw [if_neg hs, if_neg (fun h => hs ((sniff_condition _).2 h))]
    rw [response_WriteHeader_Write _ (by simpa using hfresh)]
    simp [hbody]

/-- The response after a bare `Write` on a writer that has not sent its header
yet: the implicit status 200. -/
theorem response_Write (w : ResponseWriter) (hw : w.wroteHeader = false) (b : Bytes) :
    (w.Write b).response = { status := 200, header := w.header, body := w.body ++ b } := by
  simp [ResponseWriter.response, ResponseWriter.Write, ResponseWriter.WriteHeader, hw]

/-- The path `/index.html` has extension `.html`. -/
theorem Ext_index_html : Ext (bytesOf "/index.html") = bytesOf ".html" := by decide

/-- On a path classified as HTML the extension test of the desktop handler
fails. -/
theorem wails_ext_test_of_classified (path : Bytes) (h : classifiedHTML path) :
    ¬ ((if path = bytesOf "/" ∨ path = bytesOf "/index.html" then bytesOf ".html"
          else Ext path) ≠ bytesOf ".html" ∧
       (if path = bytesOf "/" ∨ path = bytesOf "/index.html" then bytesOf ".html"
          else Ext path) ≠ bytesOf ".htm" ∧
       (if path = bytesOf "/" ∨ path = bytesOf "/index.html" then bytesOf ".html"
          else Ext path) ≠ bytesOf "") := by
  rintro ⟨h1, h2, h3⟩
  by_cases hroot : path = bytesOf "/" ∨ path = bytesOf "/index.html"
  · rw [if_pos hroot] at h1
    exact h1 rfl
  · rw [if_neg hroot] at h1 h2 h3
    rcases h with h | h | h | h
    · exact hroot (Or.inl h)
    · exact h1 h
    · exact h2 h
    · exact h3 h

/-- The desktop handler on a path classified as HTML whose file opens, reads
and passes the sniff: the file content goes through the injection step and is
written with the HTML content type. -/
theorem wails_html_branch (overlayFS : FS) (fileServer : FS → Handler)
    (detect : Bytes → String) (w : ResponseWriter) (r : Request) (c : UInt8)
    (filePath data : Bytes) (file : File) (hclass : classifiedHTML r.Path)
    (hpath : (if r.Path = bytesOf "/" then bytesOf "/index.html" else r.Path) =
      c :: filePath)
    (hopen : overlayFS.Open filePath = .ok file) (hread : file.ReadAll = .ok data)
    (hsniff : bytesOf "<html" <:+: data ∨ bodyTag <:+: data) :
    injectScriptsHandler overlayFS fileServer detect w r =
      some (ResponseWriter.Write
        { w with header := w.header.Set "Content-Type" "text/html; charset=utf-8" }
        (injectBeforeBodyTag wailsInjection data)) := by
  have hs : ¬ (!Contains data (bytesOf "<html") &&
      !Contains data (bytesOf "</body>")) = true := by
    intro h
    have := (sniff_condition data).1 h
    tauto
  unfold injectScriptsHandler
  simp only []
  rw [if_neg (wails_ext_test_of_classified r.Path hclass)]
  simp only [hpath, hopen, hread]
  rw [if_neg hs]

/-- On a path that is not `/` and has an extension other than `.html` and
`.htm`, the middleware runs the downstream handler on its own writer. -/
theorem middleware_pass_through (next : Handler) (serverMode : Bool)
    (w : ResponseWriter) (r : Request) (hroot : r.Path ≠ bytesOf "/")
    (hext : Ext r.Path ≠ bytesOf "") (hhtml : Ext r.Path ≠ bytesOf ".html")
    (hhtm : Ext r.Path ≠ bytesOf ".htm") :
    injectScriptsMiddleware next serverMode w r = next.ServeHTTP w r := by
  unfold injectScriptsMiddleware
  simp only []
  rw [if_neg hroot, if_pos ⟨hhtml, hhtm, hext⟩]

/-! ## Injector: properties -/

/-- C3 (injection correctness). For a request classified as HTML, let `body` be
the buffered downstream body. If `</body>` occurs in it and `idx` is the offset
of its first occurrence, the body sent to the client is exactly
`body[0..idx) ++ fragment ++ body[idx..)`. If `<html` occurs but `</body>` does
not, the body sent is `body`. The same holds for the desktop handler with the
content of the opened file as `body` and its own fragment. -/
theorem injection_before_first_bodyTag (next : Handler) (serverMode : Bool)
    (r : Request) (hclass : classifiedHTML r.Path) :
    (∀ idx, bodyTag <+: (captured next r).buf.drop idx →
      (∀ j, j < idx → ¬ bodyTag <+: (captured next r).buf.drop j) →
      (injectScriptsMiddleware next serverMode .fresh r).response.body =
        (captured next r).buf.take idx ++ bytesOf (injection serverMode) ++
          (captured next r).buf.drop idx) ∧
    (bytesOf "<html" <:+: (captured next r).buf →
      ¬ bodyTag <:+: (captured next r).buf →
      (injectScriptsMiddleware next serverMode .fresh r).response.body =
        (captured next r).buf) ∧
    (∀ (overlayFS : FS) (fileServer : FS → Handler) (detect : Bytes → String)
      (c : UInt8) (filePath data : Bytes) (file : File),
      (if r.Path = bytesOf "/" then bytesOf "/index.html" else r.Path) =
        c :: filePath →
      overlayFS.Open filePath = .ok file → file.ReadAll = .ok data →
      (bytesOf "<html" <:+: data ∨ bodyTag <:+: data) →
      ∃ w, injectScriptsHandler overlayFS fileServer detect .fresh r = some w ∧
        (∀ idx, bodyTag <+: data.drop idx →
          (∀ j, j < idx → ¬ bodyTag <+: data.drop j) →
          w.response.body =
            data.take idx ++ bytesOf wailsInjection ++ data.drop idx) ∧
        (¬ bodyTag <:+: data → w.response.body = data)) := by
  refine ⟨?_, ?_, ?_⟩
  · intro idx hocc hfirst
    have hin : bodyTag <:+: (captured next r).buf := by
      obtain ⟨t, ht⟩ := hocc
      exact ⟨(captured next r).buf.take idx, t, by
        rw [List.append_assoc, ht, List.take_append_drop]⟩
    rw [middleware_response next serverMode r hclass, if_neg (fun h => h.2 hin)]
    exact injectBeforeBodyTag_first _ _ idx hocc hfirst
  · intro hhtml hno
    rw [middleware_response next serverMode r hclass, if_neg (fun h => h.1 hhtml)]
    exact injectBeforeBodyTag_absent _ _ hno
  · intro overlayFS fileServer detect c filePath data file hpath hopen hread hsniff
    refine ⟨_, wails_html_branch overlayFS fileServer detect .fresh r c filePath data
      file hclass hpath hopen hread hsniff, ?_, ?_⟩
    · intro idx hocc hfirst
      rw [response_Write _ rfl]
      show [] ++ injectBeforeBodyTag wailsInjection data = _
      rw [List.nil_append]
      exact injectBeforeBodyTag_first _ _ idx hocc hfirst
    · intro hno
      rw [response_Write _ rfl]
      show [] ++ injectBeforeBodyTag wailsInjection data = _
      rw [List.nil_append]
      exact injectBeforeBodyTag_absent _ _ hno

/-- Witness of C3: a page with two closing body tags, served at `/` in server
mode; the fragment lands before the first tag (offset 4) and the second tag is
left alone. The desktop handler does the same with the page read from the
overlay as `index.html`. -/
theorem injection_before_first_bodyTag_witness :
    (injectScriptsMiddleware demoPage true .fresh (demoGet "/")).response.body =
      bytesOf "<p>a" ++ bytesOf (injection true) ++ bytesOf "</body>b</body>" ∧
    (injectScriptsMiddleware demoPage true .fresh (demoGet "/")).response.body =
      bytesOf "<p>a\n<script src=\"/js-yaml.min.js\"></script>\n<script src=\"/hotkeys.js\"></script>\n</body>b</body>" ∧
    (∃ w, injectScriptsHandler demoOverlay.toFS (fun _ _ => []) (fun _ => "text/plain")
        .fresh (demoGet "/") = some w ∧
      w.response.body =
        bytesOf "<p>a" ++ bytesOf wailsInjection ++ bytesOf "</body>b</body>") :=
  ⟨(injection_before_first_bodyTag demoPage true (demoGet "/") (Or.inl rfl)).1 4
    (by decide) (by decide),
   ((injection_before_first_bodyTag demoPage true (demoGet "/") (Or.inl rfl)).1 4
    (by decide) (by decide)).trans (by decide),
   match (injection_before_first_bodyTag demoPage true (demoGet "/") (Or.inl rfl)).2.2
      demoOverlay.toFS (fun _ _ => []) (fun _ => "text/plain") 47
      (bytesOf "index.html") (bytesOf "<p>a</body>b</body>")
      { Stat := { Name := bytesOf "index.html", Size := 19, IsDir := false },
        ReadAll := .ok (bytesOf "<p>a</body>b</body>") }
      (by decide) rfl rfl (Or.inr (by decide)) with
   | ⟨w, h1, h2, _⟩ => ⟨w, h1, h2 4 (by decide) (by decide)⟩⟩

/-- C4 (extension pass-through). For a request whose path is not `/` and whose
extension is non-empty and neither `.html` nor `.htm`, the middleware is the
downstream handler run on the very writer it was given, for every writer state,
every downstream handler (whatever it writes) and either mode; hence the
response is the downstream handler's. The desktop handler likewise hands the
request to the static file handler. -/
theorem extension_pass_through (next : Handler) (serverMode : Bool)
    (w : ResponseWriter) (r : Request) (hroot : r.Path ≠ bytesOf "/")
    (hext : Ext r.Path ≠ bytesOf "") (hhtml : Ext r.Path ≠ bytesOf ".html")
    (hhtm : Ext r.Path ≠ bytesOf ".htm") :
    injectScriptsMiddleware next serverMode w r = next.ServeHTTP w r ∧
    (injectScriptsMiddleware next serverMode w r).response =
      (next.ServeHTTP w r).response ∧
    (∀ (overlayFS : FS) (fileServer : FS → Handler) (detect : Bytes → String),
      injectScriptsHandler overlayFS fileServer detect w r =
        some ((fileServer overlayFS).ServeHTTP w r)) := by
  have hmain : injectScriptsMiddleware next serverMode w r = next.ServeHTTP w r :=
    middleware_pass_through next serverMode w r hroot hext hhtml hhtm
  refine ⟨hmain, by rw [hmain], ?_⟩
  intro overlayFS fileServer detect
  have hidx : r.Path ≠ bytesOf "/index.html" := by
    intro h
    rw [h] at hhtml
    exact hhtml Ext_index_html
  have hne : ¬ (r.Path = bytesOf "/" ∨ r.Path = bytesOf "/index.html") := by
    rintro (h | h)
    · exact hroot h
    · exact hidx h
  unfold injectScriptsHandler
  simp only []
  rw [if_neg hne, if_pos ⟨hhtml, hhtm, hext⟩]

/-- Witness of C4: a 404 answer for `/pic.png` whose body contains both markers
reaches the client with its status, header and body unchanged. -/
theorem extension_pass_through_witness :
    (injectScriptsMiddleware demoMissing false .fresh (demoGet "/pic.png")).response =
      { status := 404, header := ⟨[("Content-Type", "image/png")]⟩,
        body := bytesOf "<html></body>" } :=
  ((extension_pass_through demoMissing false .fresh (demoGet "/pic.png")
    (by decide) (by decide) (by decide) (by decide)).2.1).trans (by decide)

/-- Every path ending in `.png` has extension `.png`. -/
theorem Ext_png (stem : Bytes) : Ext (stem ++ bytesOf ".png") = bytesOf ".png" := by
  have h : bytesOf ".png" = [46, 112, 110, 103] := by decide
  rw [h]
  simp [Ext, extScan]

/-- A path ending in `.png` is passed through untouched. -/
theorem png_pass_through (next : Handler) (serverMode : Bool) (w : ResponseWriter)
    (method : String) (stem : Bytes) :
    injectScriptsMiddleware next serverMode w
        { Method := method, Path := stem ++ bytesOf ".png" } =
      next.ServeHTTP w { Method := method, Path := stem ++ bytesOf ".png" } := by
  have hE := Ext_png stem
  have hpng : bytesOf ".png" = [46, 112, 110, 103] := by decide
  refine middleware_pass_through next serverMode w _ ?_ ?_ ?_ ?_
  · intro h
    have := congrArg List.length h
    rw [hpng] at this
    simp at this
    have h2 : (bytesOf "/").length = 1 := by decide
    omega
  · show Ext (stem ++ bytesOf ".png") ≠ _
    rw [hE]; decide
  · show Ext (stem ++ bytesOf ".png") ≠ _
    rw [hE]; decide
  · show Ext (stem ++ bytesOf ".png") ≠ _
    rw [hE]; decide

/-- C5 (sniff pass-through). For a request classified as HTML whose buffered
downstream body contains neither `<html` nor `</body>`, the client receives
exactly the buffered body, with the captured status (the status of the
downstream handler's last `WriteHeader`, 200 if it made none) and with the
header map exactly as the downstream handler left it: the middleware neither
forces a content type nor touches the content length. -/
theorem sniff_pass_through (next : Handler) (serverMode : Bool) (r : Request)
    (hclass : classifiedHTML r.Path)
    (hnoHtml : ¬ bytesOf "<html" <:+: (captured next r).buf)
    (hnoBody : ¬ bodyTag <:+: (captured next r).buf) :
    (injectScriptsMiddleware next serverMode .fresh r).response =
      { status := lastStatus 200 (next r),
        header := headerAfter ⟨[]⟩ (next r),
        body := writtenBytes (next r) } ∧
    (captured next r).buf = writtenBytes (next r) ∧
    (captured next r).status = lastStatus 200 (next r) ∧
    (injectScriptsMiddleware next serverMode .fresh r).response.header.Get
        "Content-Type" = (headerAfter ⟨[]⟩ (next r)).Get "Content-Type" ∧
    (injectScriptsMiddleware next serverMode .fresh r).response.header.Get
        "Content-Length" = (headerAfter ⟨[]⟩ (next r)).Get "Content-Length" := by
  have hresp := middleware_response next serverMode r hclass
  rw [if_pos ⟨hnoHtml, hnoBody⟩] at hresp
  rw [hresp, captured_eq]
  exact ⟨rfl, rfl, rfl, rfl, rfl⟩

/-- Witness of C5: a plain-text 404 answer for `/notes` (empty extension) goes
out with its own status, content type, content length and body. -/
theorem sniff_pass_through_witness :
    (injectScriptsMiddleware demoText false .fresh (demoGet "/notes")).response =
      { status := 404,
        header := ⟨[("Content-Length", "9"), ("Content-Type", "text/plain; charset=utf-8")]⟩,
        body := bytesOf "not found" } :=
  ((sniff_pass_through demoText false (demoGet "/notes")
    (Or.inr (Or.inr (Or.inr (by decide)))) (by decide) (by decide)).1).trans (by decide)

/-- Reading back a key that was just set. -/
theorem Header.Get_Set_self (h : Header) (k v : String) : (h.Set k v).Get k = some v := by
  simp [Header.Get, Header.Set, List.lookup]

/-- Setting another key does not change what a key reads. -/
theorem Header.Get_Set_other (h : Header) (k k' v v' : String) (hne : k ≠ k') :
    ((h.Set k v).Set k' v').Get k = some v := by
  have h1 : (k == k') = false := by simpa using hne
  have h2 : (k != k') = true := by simpa using hne
  simp [Header.Get, Header.Set, List.lookup, List.filter, h1, h2]

/-- C6 (header rewrite after injection). For a request classified as HTML whose
buffered body passes the sniff, the response carries
`Content-Type: text/html; charset=utf-8` and a `Content-Length` that is the
decimal length of the body actually written; that length is
`len(body) + len(fragment)` when `</body>` occurs in the buffered body and
`len(body)` when it does not. The status is the one captured from the
downstream handler. -/
theorem header_rewrite_after_injection (next : Handler) (serverMode : Bool)
    (r : Request) (hclass : classifiedHTML r.Path)
    (hsniff : bytesOf "<html" <:+: (captured next r).buf ∨
      bodyTag <:+: (captured next r).buf) :
    (injectScriptsMiddleware next serverMode .fresh r).response.header.Get
        "Content-Type" = some "text/html; charset=utf-8" ∧
    (injectScriptsMiddleware next serverMode .fresh r).response.header.Get
        "Content-Length" =
      some (Nat.repr
        (injectScriptsMiddleware next serverMode .fresh r).response.body.length) ∧
    (bodyTag <:+: (captured next r).buf →
      (injectScriptsMiddleware next serverMode .fresh r).response.body.length =
        (captured next r).buf.length + (bytesOf (injection serverMode)).length) ∧
    (¬ bodyTag <:+: (captured next r).buf →
      (injectScriptsMiddleware next serverMode .fresh r).response.body.length =
        (captured next r).buf.length) ∧
    (injectScriptsMiddleware next serverMode .fresh r).response.status =
      (captured next r).status ∧
    (captured next r).status = lastStatus 200 (next r) := by
  have hresp := middleware_response next serverMode r hclass
  rw [if_neg (fun h => hsniff.elim h.1 h.2)] at hresp
  rw [hresp]
  refine ⟨Header.Get_Set_other _ _ _ _ _ (by decide), ?_, ?_, ?_, rfl, ?_⟩
  · rw [Header.Get_Set_self]
    rfl
  · exact (injectBeforeBodyTag_length _ _).1
  · exact (injectBeforeBodyTag_length _ _).2
  · rw [captured_eq]


/-- Witness of C6: the 19-byte page served at `/index.html` in server mode
leaves with `Content-Length: 96`, 19 plus the 77 bytes of the fragment, in
place of the downstream value 19. -/
theorem header_rewrite_after_injection_witness :
    (injectScriptsMiddleware demoPage true .fresh (demoGet "/index.html")).response.header.Get
      "Content-Length" = some "96" :=
  ((header_rewrite_after_injection demoPage true (demoGet "/index.html")
    (Or.inr (Or.inl (by decide))) (Or.inr (by decide))).2.1).trans (by decide)

/-! ## Injection fragment: properties -/

/-- The bytes of a concatenation of strings. -/
theorem bytesOf_append (a b : String) : bytesOf (a ++ b) = bytesOf a ++ bytesOf b := by
  simp [bytesOf, String.toList]

/-- The fragment of the HTTP host in presentation mode, piece by piece. -/
theorem injection_false_bytes :
    bytesOf (injection false) =
      bytesOf "\n" ++ bytesOf heartbeatScript ++ bytesOf hotkeyScripts := by
  show bytesOf (("\n" ++ heartbeatScript) ++ hotkeyScripts) = _
  rw [bytesOf_append, bytesOf_append]

/-- C8, as stated, fails on the HTTP host: in neither mode does its fragment
contain the script tags with the relative paths `js-yaml.min.js` and
`hotkeys.js`. -/
theorem injection_relative_paths_counterexample :
    ¬ (bytesOf "<script src=\"js-yaml.min.js\"></script>" <:+: bytesOf (injection true)) ∧
    ¬ (bytesOf "<script src=\"hotkeys.js\"></script>" <:+: bytesOf (injection true)) ∧
    ¬ (bytesOf "<script src=\"js-yaml.min.js\"></script>" <:+: bytesOf (injection false)) ∧
    ¬ (bytesOf "<script src=\"hotkeys.js\"></script>" <:+: bytesOf (injection false)) := by
  simp only [← Contains_iff]
  set_option maxRecDepth 100000 in decide

/-- C8, amended. In both modes the fragment of the HTTP host ends with the two
script tags whose `src` values are the root-absolute paths `/js-yaml.min.js`
and `/hotkeys.js`, in that order; the fragment of the desktop host begins with
the two script tags whose `src` values are the relative paths `js-yaml.min.js`
and `hotkeys.js`, in that order. -/
theorem injection_script_references (serverMode : Bool) :
    bytesOf "<script src=\"/js-yaml.min.js\"></script>\n<script src=\"/hotkeys.js\"></script>\n"
      <:+ bytesOf (injection serverMode) ∧
    bytesOf "<script src=\"js-yaml.min.js\"></script>\n<script src=\"hotkeys.js\"></script>\n"
      <+: bytesOf wailsInjection := by
  constructor
  · cases serverMode
    · exact ⟨bytesOf "\n" ++ bytesOf heartbeatScript, injection_false_bytes.symm⟩
    · exact ⟨bytesOf "\n", (bytesOf_append "\n" hotkeyScripts).symm⟩
  · rw [← startsWith_iff]
    set_option maxRecDepth 100000 in decide

/-- C9 (heartbeat only in presentation mode). The fragment contains the
heartbeat script, which opens `/ws` and sends `ping`, if and only if
`serverMode` is false; in server mode the fragment is a newline followed by the
two helper script tags and mentions no WebSocket; and `main` registers `/ws`
and `/shutdown` if and only if `serverMode` is false. -/
theorem heartbeat_only_in_presentation_mode (serverMode : Bool) :
    (bytesOf heartbeatScript <:+: bytesOf (injection serverMode) ↔ serverMode = false) ∧
    (bytesOf "new WebSocket(" <:+: bytesOf (injection serverMode) ↔ serverMode = false) ∧
    (bytesOf "ws.send('ping')" <:+: bytesOf (injection serverMode) ↔ serverMode = false) ∧
    (bytesOf "+ '/ws'" <:+: bytesOf heartbeatScript ∧
      bytesOf "ws.send('ping')" <:+: bytesOf heartbeatScript) ∧
    injection true =
      "\n<script src=\"/js-yaml.min.js\"></script>\n<script src=\"/hotkeys.js\"></script>\n" ∧
    ((("/ws", Endpoint.websocketHandler) ∈ registeredRoutes serverMode) ↔ serverMode = false) ∧
    ((("/shutdown", Endpoint.shutdownHandler) ∈ registeredRoutes serverMode) ↔
      serverMode = false) ∧
    registeredRoutes true = [("/", Endpoint.site)] ∧
    registeredRoutes false = [("/", Endpoint.site), ("/ws", Endpoint.websocketHandler),
      ("/shutdown", Endpoint.shutdownHandler)] := by
  refine ⟨?_, ?_, ?_, ?_, by decide, ?_, ?_, by decide, by decide⟩
  · cases serverMode
    · simp only [iff_true]
      exact ⟨bytesOf "\n", bytesOf hotkeyScripts, injection_false_bytes.symm⟩
    · simp only [← Contains_iff]
      set_option maxRecDepth 100000 in decide
  · cases serverMode
    · simp only [← Contains_iff]
      set_option maxRecDepth 100000 in decide
    · simp only [← Contains_iff]
      set_option maxRecDepth 100000 in decide
  · cases serverMode
    · simp only [← Contains_iff]
      set_option maxRecDepth 100000 in decide
    · simp only [← Contains_iff]
      set_option maxRecDepth 100000 in decide
  · simp only [← Contains_iff]
    set_option maxRecDepth 100000 in decide
  · cases serverMode <;> decide
  · cases serverMode <;> decide

/-! ## Lifecycle controller: properties -/

/-- The read events of a sequence of successfully read messages. -/
theorem run_messages (msgs : List (Int × Bytes)) :
    websocketHandlerRun .Connected
      (msgs.map (fun m => Event.read (.message m.1 m.2))) = some .Connected := by
  induction msgs with
  | nil => rfl
  | cons m msgs ih => simpa [websocketHandlerRun, websocketHandlerStep] using ih

/-- Running a sequence of successful reads and then further events is running
the further events from `Connected`. -/
theorem run_messages_append (msgs : List (Int × Bytes)) (rest : List Event) :
    websocketHandlerRun .Connected
      (msgs.map (fun m => Event.read (.message m.1 m.2)) ++ rest) =
      websocketHandlerRun .Connected rest := by
  induction msgs with
  | nil => rfl
  | cons m msgs ih => simpa [websocketHandlerRun, websocketHandlerStep] using ih

/-- C10 (lifecycle state machine). Every successful read, whatever the
message, leaves the controller in `Connected`, and so does any sequence of
them; the first failed read moves it to `Terminating` (grace delay 500 ms),
from which the only step is the expiry of the delay, leading to `Exited 0`;
`Exited` has no outgoing step; a failed upgrade leads to `UpgradeFailed`, from
which no step (in particular no exit) is possible; and `shutdownHandler`
answers status 200 and schedules, after its 200 ms delay, `Exited 0`. -/
theorem lifecycle_state_machine :
    (∀ t p, websocketHandlerStep .Connected (.read (.message t p)) = some .Connected) ∧
    (∀ msgs : List (Int × Bytes),
      websocketHandlerRun .Connected
        (msgs.map (fun m => Event.read (.message m.1 m.2))) = some .Connected) ∧
    (∀ (msgs : List (Int × Bytes)) (err : String),
      websocketHandlerRun .Connected
        (msgs.map (fun m => Event.read (.message m.1 m.2)) ++ [.read (.failed err)]) =
        some (.Terminating 500)) ∧
    (∀ g e s, websocketHandlerStep (.Terminating g) e = some s →
      e = .graceElapsed ∧ s = .Exited 0) ∧
    (∀ g, websocketHandlerStep (.Terminating g) .graceElapsed = some (.Exited 0)) ∧
    (∀ (msgs : List (Int × Bytes)) (err : String),
      websocketHandlerRun .Connected
        (msgs.map (fun m => Event.read (.message m.1 m.2)) ++
          [.read (.failed err), .graceElapsed]) = some (.Exited 0)) ∧
    (∀ c e, websocketHandlerStep (.Exited c) e = none) ∧
    (websocketHandlerStep .AwaitingConnection (.upgrade false) = some .UpgradeFailed ∧
      websocketHandlerStep .AwaitingConnection (.upgrade true) = some .Connected ∧
      ∀ e, websocketHandlerStep .UpgradeFailed e = none) ∧
    (∀ r, (shutdownHandler .fresh r).1.response.status = 200 ∧
      (shutdownHandler .fresh r).2 = .Terminating 200 ∧
      websocketHandlerRun (shutdownHandler .fresh r).2 [.graceElapsed] =
        some (.Exited 0)) := by
  refine ⟨fun _ _ => rfl, run_messages, ?_, ?_, fun _ => rfl, ?_, ?_, ⟨rfl, rfl, ?_⟩, ?_⟩
  · intro msgs err
    rw [run_messages_append]
    rfl
  · intro g e s h
    cases e with
    | upgrade ok => simp [websocketHandlerStep] at h
    | read r => simp [websocketHandlerStep] at h
    | graceElapsed =>
      simp only [websocketHandlerStep, Option.some.injEq] at h
      exact ⟨rfl, h.symm⟩
  · intro msgs err
    rw [run_messages_append]
    rfl
  · intro c e
    cases e <;> rfl
  · intro e
    cases e <;> rfl
  · intro r
    exact ⟨rfl, rfl, rfl⟩

end Scrolly
